import Mathlib

/-
Verification of the three stack variants of `demo/stack01/lfstack.cc`:
the plain single-threaded `stack`, the mutex-guarded `lstack`, and the
lock-free `lfstack` whose atomic `index` word packs a count (bits 31..1)
and a writer flag (bit 0).

Machine integers are modelled as `Nat` with explicit reduction modulo
2^32 = 4294967296 wherever `uint32_t` overflow or wrap-around matters.
Fatal assertion failures (C `assert`) are modelled by operations
returning `Option`, with `none` standing for the trap.

The concurrent operations are embedded with their sequential (single
thread, no interference) semantics: every atomic load returns the value
stored by the previous step of the same thread, and a compare-and-swap
succeeds exactly when its expected value equals that current value.  In
addition, the value pair attempted by one iteration of the try_pop CAS
loop is exposed as a function of the raw loaded word, so that the CAS
protocol itself can be examined independently of scheduling.
-/

/-- `uint32_t` subtraction `a - b`, i.e. subtraction modulo 2^32,
well defined for arbitrary `Nat` arguments. -/
def sub32 (a b : Nat) : Nat :=
  (a % 4294967296 + (4294967296 - b % 4294967296)) % 4294967296

/-- The non-thread-safe stack (`class stack` in the source).
`contents` models the backing buffer reached through `_contents`;
`cap` is the length given to `contents.resize`; `inited` records whether
`_contents` has been pointed at the buffer (it is null before the first
`resize`); `index` and `size` are the two `uint32_t` members, both
initialised to 0 by the member initialisers. -/
structure stack (T : Type) where
  contents : Nat → T
  cap : Nat
  inited : Bool
  index : Nat
  size : Nat

/-- A freshly constructed `stack<T>`: null `_contents`, `index = 0`,
`size = 0`; the buffer holds default-constructed elements `d`. -/
def stack.init (T : Type) (d : T) : stack T :=
  ⟨fun _ => d, 0, false, 0, 0⟩

/-- `stack::resize(n)`: `contents.resize(n); _contents = &contents[0];`.
Note that the `size` member is NOT assigned. -/
def stack.resize (s : stack T) (n : Nat) : stack T :=
  { s with cap := n, inited := true }

/-- `stack::push(t)`: asserts `_contents != nullptr` and
`index < size - 1` (a `uint32_t` comparison, so `size - 1` wraps to
4294967295 when `size = 0`), then stores at `index` and increments it.
`none` is the assertion trap. -/
def stack.push (s : stack T) (t : T) : Option (stack T) :=
  if s.inited = true ∧ s.index < sub32 s.size 1 then
    some { s with
      contents := fun j => if j = s.index then t else s.contents j,
      index := (s.index + 1) % 4294967296 }
  else none

/-- `stack::try_pop(t)`: returns `false` leaving `t` alone when
`index == 0`, else pre-decrements `index` and copies that slot out.
The `assert(index > 0)` on this path follows from the `index == 0`
early return, so the operation never traps.  The result is
(return value, new stack state, final value of the out parameter). -/
def stack.try_pop (s : stack T) (t : T) : Bool × stack T × T :=
  if s.index = 0 then (false, s, t)
  else
    let i := sub32 s.index 1
    (true, { s with index := i }, s.contents i)

/-- The lock-based stack (`class lstack`): a plain `stack` guarded by a
mutex.  `locked` models the mutex state; sequential calls always find it
free. -/
structure lstack (T : Type) where
  wrapped : stack T
  locked : Bool

/-- A freshly constructed `lstack<T>`. -/
def lstack.init (T : Type) (d : T) : lstack T :=
  ⟨stack.init T d, false⟩

/-- `lstack::nonconcurrent_resize(n)`: delegates to `wrapped.resize(n)`
without taking the lock. -/
def lstack.nonconcurrent_resize (s : lstack T) (n : Nat) : lstack T :=
  { s with wrapped := s.wrapped.resize n }

/-- `lstack::push(t)`: acquires the mutex (a sequential caller blocks
forever, modelled `none`, only if it were already held), delegates to
`wrapped.push`, releases on scope exit. -/
def lstack.push (s : lstack T) (t : T) : Option (lstack T) :=
  if s.locked = true then none
  else (s.wrapped.push t).map fun w => ⟨w, false⟩

/-- `lstack::try_pop(t)`: acquires the mutex, delegates to
`wrapped.try_pop`, releases on scope exit. -/
def lstack.try_pop (s : lstack T) (t : T) : Option (Bool × lstack T × T) :=
  if s.locked = true then none
  else
    let r := s.wrapped.try_pop t
    some (r.1, ⟨r.2.1, false⟩, r.2.2)

/-- The lock-free stack (`class lfstack`).  `index` is the atomic
`uint32_t` control word: bit 0 is the writer flag, bits 31..1 the
element count. -/
structure lfstack (T : Type) where
  contents : Nat → T
  cap : Nat
  inited : Bool
  index : Nat
  size : Nat

/-- `lfstack::clean_index(i)`, the mask `i & 0xfffffffe`: for a 32-bit
value this clears the low (writer-flag) bit, i.e. subtracts the parity. -/
def lfstack.clean_index (i : Nat) : Nat :=
  i % 4294967296 - i % 2

/-- `lfstack::flag_index(i)`, the mask `i | 0x01`: sets the low
(writer-flag) bit. -/
def lfstack.flag_index (i : Nat) : Nat :=
  i % 4294967296 - i % 2 + 1

/-- `lfstack::read_index(i)`, the shift `i >> 1`: the count field. -/
def lfstack.read_index (i : Nat) : Nat :=
  i % 4294967296 / 2

/-- The `assert(i > 0)` guarding `lfstack::decrement_index`. -/
def lfstack.decrement_ok (i : Nat) : Prop :=
  0 < i

instance (i : Nat) : Decidable (lfstack.decrement_ok i) :=
  inferInstanceAs (Decidable (0 < i))

/-- `lfstack::decrement_index(i)`: `i - 2` in `uint32_t` arithmetic
(the assertion `i > 0` is modelled separately at the call sites via
`lfstack.decrement_ok`). -/
def lfstack.decrement_index (i : Nat) : Nat :=
  sub32 i 2

/-- `lfstack::is_zero(i)`: `i < 2`, accepting both 0 and 1 (count zero
with or without the writer flag). -/
def lfstack.is_zero (i : Nat) : Bool :=
  i % 4294967296 < 2

/-- `lfstack::increment_index(i)`: `i + 2` in `uint32_t` arithmetic. -/
def lfstack.increment_index (i : Nat) : Nat :=
  (i % 4294967296 + 2) % 4294967296

/-- A freshly constructed `lfstack<T>`. -/
def lfstack.init (T : Type) (d : T) : lfstack T :=
  ⟨fun _ => d, 0, false, 0, 0⟩

/-- `lfstack::nonconcurrent_resize(n)`: resizes the buffer, points
`_contents` at it, assigns the `uint32_t` member `size = n` (truncating
the `size_t` argument), and stores 0 into the atomic `index`. -/
def lfstack.nonconcurrent_resize (s : lfstack T) (n : Nat) : lfstack T :=
  { s with cap := n, inited := true, size := n % 4294967296, index := 0 }

/-- `lfstack::push(t)` run without interference from other threads.
`acquire_write_rights` loads `index` and CASes it to the flagged value,
which succeeds at once; the loop body then loads the flagged word,
asserts `read_index(index_copy) < size - 1` (`none` on failure), stores
`t` at `read_index(clean_index(index_copy))`, and publishes with a CAS
to `increment_index(clean_index(index_copy))`, which again succeeds at
once since nothing else touched `index`. -/
def lfstack.push (s : lfstack T) (t : T) : Option (lfstack T) :=
  if s.inited = true then
    let index_copy := lfstack.flag_index s.index
    if lfstack.read_index index_copy < sub32 s.size 1 then
      some { s with
        contents := fun j =>
          if j = lfstack.read_index (lfstack.clean_index index_copy) then t
          else s.contents j,
        index := lfstack.increment_index (lfstack.clean_index index_copy) }
    else none
  else none

/-- The compare-and-swap attempted by one iteration of
`lfstack::try_pop`, as a function of the raw word `raw` obtained from
`index.load()`: `none` when the iteration returns early on an empty
stack, otherwise `some (expected, new)` where `expected` is the value
the CAS compares against and `new` the value it installs. -/
def lfstack.try_pop_attempt (raw : Nat) : Option (Nat × Nat) :=
  let index_copy := lfstack.clean_index raw
  if lfstack.is_zero index_copy = true then none
  else some (index_copy, lfstack.decrement_index index_copy)

/-- `lfstack::try_pop(dest)` run without interference from other
threads: loads `index`, cleans it, returns `false` with `dest`
untouched when the count is zero; otherwise checks `decrement_index`'s
assertion, copies slot `read_index(decrement_index(index_copy))` into
`dest` and CASes `index` from `index_copy` to
`decrement_index(index_copy)`.  Without interference the CAS outcome is
decided by comparing `index_copy` with the unchanged stored word; a
failing CAS would repeat the identical iteration forever, which (like
the assertion trap) is modelled as `none`. -/
def lfstack.try_pop (s : lfstack T) (dest : T) : Option (Bool × lfstack T × T) :=
  if s.inited = true then
    let index_copy := lfstack.clean_index s.index
    if lfstack.is_zero index_copy = true then some (false, s, dest)
    else if lfstack.decrement_ok index_copy then
      let dest2 := s.contents (lfstack.read_index (lfstack.decrement_index index_copy))
      if s.index = index_copy then
        some (true, { s with index := lfstack.decrement_index index_copy }, dest2)
      else none
    else none
  else none

/-- One operation of the common stack interface: `push` carries the
pushed value, `pop` the initial value of the caller's out parameter. -/
inductive StOp (T : Type) where
  | push : T → StOp T
  | pop : T → StOp T

/-- Run one operation on the plain stack, collecting the observable
output (success flag and final out-parameter value) of a pop. -/
def stack.runOp (s : stack T) : StOp T → Option (stack T × List (Bool × T))
  | StOp.push t => (s.push t).map fun s2 => (s2, [])
  | StOp.pop d =>
    let r := s.try_pop d
    some (r.2.1, [(r.1, r.2.2)])

/-- Run a sequence of operations on the plain stack, concatenating the
pop outputs; `none` as soon as an assertion traps. -/
def stack.runSeq (s : stack T) : List (StOp T) → Option (stack T × List (Bool × T))
  | [] => some (s, [])
  | op :: ops =>
    (s.runOp op).bind fun p => (p.1.runSeq ops).map fun q => (q.1, p.2 ++ q.2)

/-- Run one operation on the lock-based stack. -/
def lstack.runOp (s : lstack T) : StOp T → Option (lstack T × List (Bool × T))
  | StOp.push t => (s.push t).map fun s2 => (s2, [])
  | StOp.pop d => (s.try_pop d).map fun r => (r.2.1, [(r.1, r.2.2)])

/-- Run a sequence of operations on the lock-based stack. -/
def lstack.runSeq (s : lstack T) : List (StOp T) → Option (lstack T × List (Bool × T))
  | [] => some (s, [])
  | op :: ops =>
    (s.runOp op).bind fun p => (p.1.runSeq ops).map fun q => (q.1, p.2 ++ q.2)

/-- Run one operation on the lock-free stack (sequential semantics). -/
def lfstack.runOp (s : lfstack T) : StOp T → Option (lfstack T × List (Bool × T))
  | StOp.push t => (s.push t).map fun s2 => (s2, [])
  | StOp.pop d => (s.try_pop d).map fun r => (r.2.1, [(r.1, r.2.2)])

/-- Run a sequence of operations on the lock-free stack. -/
def lfstack.runSeq (s : lfstack T) : List (StOp T) → Option (lfstack T × List (Bool × T))
  | [] => some (s, [])
  | op :: ops =>
    (s.runOp op).bind fun p => (p.1.runSeq ops).map fun q => (q.1, p.2 ++ q.2)

/-- Push the values of a list, left to right, onto the plain stack. -/
def stack.pushSeq (s : stack T) : List T → Option (stack T)
  | [] => some s
  | v :: vs => (s.push v).bind fun s2 => s2.pushSeq vs

/-- Perform `k` consecutive `try_pop`s on the plain stack, threading the
out parameter through as the demo program does, and record each call's
(success flag, out-parameter value) pair. -/
def stack.popN (s : stack T) (d : T) : Nat → List (Bool × T) × stack T
  | 0 => ([], s)
  | Nat.succ k =>
    let r := s.try_pop d
    let rest := r.2.1.popN r.2.2 k
    ((r.1, r.2.2) :: rest.1, rest.2)

/-- The plain-stack block of `main`: resize(100), push 1, 2, 3, then
four `try_pop`s into a variable initialised to -1, threading it through
all four calls; the recorded outputs are each call's return flag and the
variable's value after the call. -/
def demo_stack : Option (List (Bool × Int)) :=
  (((stack.init Int 0).resize 100).push 1).bind fun s1 =>
  (s1.push 2).bind fun s2 =>
  (s2.push 3).bind fun s3 =>
  let r0 : Int := -1
  let p1 := s3.try_pop r0
  let p2 := p1.2.1.try_pop p1.2.2
  let p3 := p2.2.1.try_pop p2.2.2
  let p4 := p3.2.1.try_pop p3.2.2
  some [(p1.1, p1.2.2), (p2.1, p2.2.2), (p3.1, p3.2.2), (p4.1, p4.2.2)]

/-- The same scenario on the lock-based stack. -/
def demo_lstack : Option (List (Bool × Int)) :=
  (((lstack.init Int 0).nonconcurrent_resize 100).push 1).bind fun s1 =>
  (s1.push 2).bind fun s2 =>
  (s2.push 3).bind fun s3 =>
  let r0 : Int := -1
  (s3.try_pop r0).bind fun p1 =>
  (p1.2.1.try_pop p1.2.2).bind fun p2 =>
  (p2.2.1.try_pop p2.2.2).bind fun p3 =>
  (p3.2.1.try_pop p3.2.2).bind fun p4 =>
  some [(p1.1, p1.2.2), (p2.1, p2.2.2), (p3.1, p3.2.2), (p4.1, p4.2.2)]

/-- The same scenario on the lock-free stack. -/
def demo_lfstack : Option (List (Bool × Int)) :=
  (((lfstack.init Int 0).nonconcurrent_resize 100).push 1).bind fun s1 =>
  (s1.push 2).bind fun s2 =>
  (s2.push 3).bind fun s3 =>
  let r0 : Int := -1
  (s3.try_pop r0).bind fun p1 =>
  (p1.2.1.try_pop p1.2.2).bind fun p2 =>
  (p2.2.1.try_pop p2.2.2).bind fun p3 =>
  (p3.2.1.try_pop p3.2.2).bind fun p4 =>
  some [(p1.1, p1.2.2), (p2.1, p2.2.2), (p3.1, p3.2.2), (p4.1, p4.2.2)]

/-- The plain stack `s` holds exactly the elements of `L`, bottom
first: `index` equals the length of `L` and slot `j` holds `L[j]`. -/
def stack.encodes (s : stack T) (L : List T) : Prop :=
  s.index = L.length ∧ ∀ j, (h : j < L.length) → s.contents j = L[j]

/-! Arithmetic facts about the `uint32_t` helpers. -/

theorem sub32_eq_sub (a b : Nat) (hb : b ≤ a) (ha : a < 4294967296) :
    sub32 a b = a - b := by
  unfold sub32; omega

theorem sub32_lt (a b : Nat) : sub32 a b < 4294967296 := by
  unfold sub32; omega

theorem lfstack.clean_index_eq (i : Nat) :
    lfstack.clean_index i = 2 * lfstack.read_index i := by
  unfold lfstack.clean_index lfstack.read_index; omega

theorem lfstack.clean_index_lt (i : Nat) :
    lfstack.clean_index i < 4294967296 := by
  unfold lfstack.clean_index; omega

theorem lfstack.clean_index_mod_two (i : Nat) :
    lfstack.clean_index i % 2 = 0 := by
  unfold lfstack.clean_index; omega

theorem lfstack.clean_index_of_even (i : Nat) (h2 : i % 2 = 0)
    (hlt : i < 4294967296) : lfstack.clean_index i = i := by
  unfold lfstack.clean_index; omega

theorem lfstack.read_index_lt (i : Nat) :
    lfstack.read_index i < 2147483648 := by
  unfold lfstack.read_index; omega

theorem lfstack.read_index_flag (i : Nat) :
    lfstack.read_index (lfstack.flag_index i) = lfstack.read_index i := by
  unfold lfstack.read_index lfstack.flag_index; omega

theorem lfstack.clean_index_flag (i : Nat) :
    lfstack.clean_index (lfstack.flag_index i) = lfstack.clean_index i := by
  unfold lfstack.clean_index lfstack.flag_index; omega

theorem lfstack.read_index_clean (i : Nat) :
    lfstack.read_index (lfstack.clean_index i) = lfstack.read_index i := by
  unfold lfstack.read_index lfstack.clean_index; omega

theorem lfstack.increment_clean (i : Nat) :
    lfstack.increment_index (lfstack.clean_index i) =
      (2 * (lfstack.read_index i + 1)) % 4294967296 := by
  unfold lfstack.increment_index lfstack.clean_index lfstack.read_index; omega

theorem lfstack.is_zero_false_iff (i : Nat) :
    lfstack.is_zero i = false ↔ 2 ≤ i % 4294967296 := by
  unfold lfstack.is_zero
  rw [decide_eq_false_iff_not]
  omega

theorem lfstack.is_zero_clean_iff (i : Nat) :
    lfstack.is_zero (lfstack.clean_index i) = false ↔
      lfstack.read_index i ≠ 0 := by
  unfold lfstack.is_zero lfstack.clean_index lfstack.read_index
  rw [decide_eq_false_iff_not]
  omega

theorem lfstack.is_zero_clean_true_iff (i : Nat) :
    lfstack.is_zero (lfstack.clean_index i) = true ↔
      lfstack.read_index i = 0 := by
  unfold lfstack.is_zero lfstack.clean_index lfstack.read_index
  rw [decide_eq_true_eq]
  omega

theorem lfstack.decrement_index_eq (i : Nat) (h2 : 2 ≤ i)
    (hlt : i < 4294967296) : lfstack.decrement_index i = i - 2 := by
  unfold lfstack.decrement_index; exact sub32_eq_sub i 2 h2 hlt

/-! Unfolding lemmas for the operations, under the hypotheses that make
each branch fire. -/

theorem stack.push_eq_some (T : Type) (s : stack T) (t : T)
    (hinit : s.inited = true) (hidx : s.index < sub32 s.size 1) :
    s.push t = some { s with
      contents := fun j => if j = s.index then t else s.contents j,
      index := (s.index + 1) % 4294967296 } := by
  unfold stack.push
  rw [if_pos ⟨hinit, hidx⟩]

theorem stack.push_eq_none (T : Type) (s : stack T) (t : T)
    (hidx : ¬ s.index < sub32 s.size 1) : s.push t = none := by
  unfold stack.push
  rw [if_neg]
  intro h
  exact hidx h.2

theorem stack.try_pop_zero (T : Type) (s : stack T) (d : T)
    (h : s.index = 0) : s.try_pop d = (false, s, d) := by
  unfold stack.try_pop
  rw [if_pos h]

theorem stack.try_pop_pos (T : Type) (s : stack T) (d : T)
    (h : s.index ≠ 0) :
    s.try_pop d = (true, { s with index := sub32 s.index 1 },
      s.contents (sub32 s.index 1)) := by
  unfold stack.try_pop
  rw [if_neg h]

theorem lfstack.push_unfolds_some (T : Type) (s : lfstack T) (t : T)
    (hinit : s.inited = true)
    (hpre : lfstack.read_index s.index < sub32 s.size 1) :
    s.push t = some { s with
      contents := fun j => if j = lfstack.read_index s.index then t
        else s.contents j,
      index := (2 * (lfstack.read_index s.index + 1)) % 4294967296 } := by
  unfold lfstack.push
  rw [hinit, if_pos rfl]
  rw [if_pos (by rw [lfstack.read_index_flag]; exact hpre)]
  rw [lfstack.clean_index_flag, lfstack.read_index_clean, lfstack.increment_clean]

theorem lfstack.push_unfolds_none (T : Type) (s : lfstack T) (t : T)
    (hinit : s.inited = true)
    (hpre : ¬ lfstack.read_index s.index < sub32 s.size 1) :
    s.push t = none := by
  unfold lfstack.push
  rw [hinit, if_pos rfl]
  rw [if_neg (by rw [lfstack.read_index_flag]; exact hpre)]

theorem lfstack.try_pop_empty (T : Type) (s : lfstack T) (d : T)
    (hinit : s.inited = true) (hz : lfstack.read_index s.index = 0) :
    s.try_pop d = some (false, s, d) := by
  unfold lfstack.try_pop
  rw [hinit, if_pos rfl]
  rw [if_pos (by
    revert hz
    unfold lfstack.is_zero lfstack.clean_index lfstack.read_index
    intro hz
    rw [decide_eq_true_eq]
    omega)]

theorem lfstack.try_pop_success (T : Type) (s : lfstack T) (d : T)
    (hinit : s.inited = true) (heven : s.index % 2 = 0)
    (hlt : s.index < 4294967296) (hnz : lfstack.read_index s.index ≠ 0) :
    s.try_pop d = some (true, { s with index := s.index - 2 },
      s.contents (lfstack.read_index s.index - 1)) := by
  have h2 : 2 ≤ s.index := by
    revert hnz
    unfold lfstack.read_index
    omega
  have hclean : lfstack.clean_index s.index = s.index :=
    lfstack.clean_index_of_even s.index heven hlt
  have hdec : lfstack.decrement_index s.index = s.index - 2 :=
    lfstack.decrement_index_eq s.index h2 hlt
  have hread : lfstack.read_index (s.index - 2) = lfstack.read_index s.index - 1 := by
    unfold lfstack.read_index
    omega
  unfold lfstack.try_pop
  rw [hinit, if_pos rfl, hclean]
  rw [if_neg (by
    rw [(lfstack.is_zero_false_iff s.index).2 (by omega)]
    intro h
    exact Bool.false_ne_true h)]
  rw [if_pos (by unfold lfstack.decrement_ok; omega)]
  rw [if_pos rfl, hdec, hread]

/-! The claims. -/

/-- C1 (counterexample): the claim says try_pop's CAS expects the exact
raw control word observed in step 1, flag bit included and unmasked.
At the observed raw word 3 (count 1, writer flag set) the count is
non-zero, yet the attempted CAS expects 2 — the cleaned word, not the
raw word 3. -/
theorem lfstack.try_pop_cas_expected_not_raw :
    lfstack.is_zero (lfstack.clean_index 3) = false ∧
    lfstack.try_pop_attempt 3 = some (2, 0) ∧ (2 : Nat) ≠ 3 := by
  decide

/-- C1 (amended): whenever the count obtained by masking the observed
control word is non-zero, try_pop attempts to CAS the control word from
the observed value with the writer flag masked off (`clean_index` of
the raw word) to count − 1 encoded with the writer flag forced to 0;
when that CAS succeeds (in particular, without interference, whenever
the observed word carried no flag) it returns success with the out
parameter populated from slot count − 1. -/
theorem lfstack.try_pop_cas_from_cleaned (T : Type) (raw : Nat)
    (s : lfstack T) (d : T)
    (hraw : lfstack.is_zero (lfstack.clean_index raw) = false)
    (hinit : s.inited = true) (heven : s.index % 2 = 0)
    (hlt : s.index < 4294967296) (hnz : lfstack.read_index s.index ≠ 0) :
    lfstack.try_pop_attempt raw =
      some (lfstack.clean_index raw,
        lfstack.decrement_index (lfstack.clean_index raw)) ∧
    lfstack.read_index (lfstack.decrement_index (lfstack.clean_index raw)) =
      lfstack.read_index raw - 1 ∧
    lfstack.decrement_index (lfstack.clean_index raw) % 2 = 0 ∧
    s.try_pop d = some (true, { s with index := s.index - 2 },
      s.contents (lfstack.read_index s.index - 1)) := by
  have h2 : 2 ≤ lfstack.clean_index raw := by
    have := (lfstack.is_zero_false_iff (lfstack.clean_index raw)).1 hraw
    have := lfstack.clean_index_lt raw
    omega
  have hdec : lfstack.decrement_index (lfstack.clean_index raw) =
      lfstack.clean_index raw - 2 :=
    lfstack.decrement_index_eq (lfstack.clean_index raw) h2
      (lfstack.clean_index_lt raw)
  refine ⟨?_, ?_, ?_, lfstack.try_pop_success T s d hinit heven hlt hnz⟩
  · simp [lfstack.try_pop_attempt, hraw]
  · rw [hdec]
    have := lfstack.clean_index_eq raw
    have := lfstack.read_index_clean raw
    have := lfstack.clean_index_lt raw
    unfold lfstack.read_index at *
    omega
  · rw [hdec]
    have := lfstack.clean_index_mod_two raw
    omega

/-- C2: for an initialized lock-free stack on which push's precondition
(observed count < size − 1) holds, the completed push's publishing CAS
leaves the control word equal to the observed count plus one encoded in
the count field (i.e. `2 * (count + 1)` reduced mod 2^32) with the
writer-flag bit equal to 0; when the doubled value does not wrap, the
count field afterwards reads exactly count + 1. -/
theorem lfstack.push_publishes_incremented_count (T : Type)
    (s : lfstack T) (t : T) (hinit : s.inited = true)
    (hpre : lfstack.read_index s.index < sub32 s.size 1) :
    ∃ s2, s.push t = some s2 ∧
      s2.index = (2 * (lfstack.read_index s.index + 1)) % 4294967296 ∧
      s2.index % 2 = 0 ∧
      (2 * (lfstack.read_index s.index + 1) < 4294967296 →
        lfstack.read_index s2.index = lfstack.read_index s.index + 1) := by
  refine ⟨_, lfstack.push_unfolds_some T s t hinit hpre, rfl, ?_, ?_⟩
  · show (2 * (lfstack.read_index s.index + 1)) % 4294967296 % 2 = 0
    omega
  · intro hsmall
    show lfstack.read_index ((2 * (lfstack.read_index s.index + 1)) % 4294967296)
      = lfstack.read_index s.index + 1
    unfold lfstack.read_index at hsmall ⊢
    omega

/-- C4 (evaluation at the failing input): after `resize(2)` on the plain
stack — capacity 2, so exactly one push must succeed — a second push
does NOT fail its assertion but succeeds, because `stack::resize` never
assigns the `size` member and the assert compares `index < 0u - 1`.
The lock-free stack at the same capacity does trap the second push, as
the claim requires of both variants. -/
theorem stack.capacity_overpush_not_trapped :
    ((((stack.init Int 0).resize 2).push 7).bind (fun s => s.push 8)).isSome
      = true ∧
    ((((lfstack.init Int 0).nonconcurrent_resize 2).push 7).bind
      (fun s => s.push 8)).isNone = true ∧
    (((lfstack.init Int 0).nonconcurrent_resize 2).push 7).isSome = true := by
  exact ⟨rfl, rfl, rfl⟩

/-- C6: the literal scenario — resize(100); push 1, 2, 3; four try_pops
threading one out variable initialised to −1 — yields (true,3),
(true,2), (true,1) and finally (false, output unchanged: still 1),
identically on the plain, lock-based and lock-free variants. -/
theorem demo_all_variants_agree :
    demo_stack = some [(true, 3), (true, 2), (true, 1), (false, 1)] ∧
    demo_lstack = some [(true, 3), (true, 2), (true, 1), (false, 1)] ∧
    demo_lfstack = some [(true, 3), (true, 2), (true, 1), (false, 1)] := by
  decide

/-- C9: the plain stack's resize never updates the `size` member (it is
preserved by every resize and remains 0 from construction for every n);
the push assertion therefore compares `index < 0u − 1 = 4294967295` and
holds — push succeeds — for every index up to 2^32 − 2, regardless of
the capacity passed to resize. -/
theorem stack.resize_keeps_size_zero (T : Type) (d t : T) (n : Nat)
    (s : stack T) :
    (s.resize n).size = s.size ∧
    ((stack.init T d).resize n).size = 0 ∧
    sub32 0 1 = 4294967295 ∧
    (∀ s2 : stack T, s2.inited = true → s2.size = 0 →
      s2.index ≤ 4294967294 → (s2.push t).isSome = true) := by
  refine ⟨rfl, rfl, by decide, ?_⟩
  intro s2 hinit hsz hidx
  rw [stack.push_eq_some T s2 t hinit (by rw [hsz]; unfold sub32; omega)]
  rfl

/-- C10: in try_pop, `decrement_index` is only invoked on the cleaned
word after the `is_zero` early return, hence on a value ≥ 2: its
assertion `i > 0` holds and the unsigned `i − 2` does not underflow
(it equals the plain natural subtraction). -/
theorem lfstack.decrement_index_no_underflow (i : Nat)
    (h : lfstack.is_zero (lfstack.clean_index i) = false) :
    2 ≤ lfstack.clean_index i ∧
    lfstack.decrement_ok (lfstack.clean_index i) ∧
    lfstack.decrement_index (lfstack.clean_index i) =
      lfstack.clean_index i - 2 := by
  have h2 : 2 ≤ lfstack.clean_index i := by
    have := (lfstack.is_zero_false_iff (lfstack.clean_index i)).1 h
    have := lfstack.clean_index_lt i
    omega
  exact ⟨h2, by unfold lfstack.decrement_ok; omega,
    lfstack.decrement_index_eq (lfstack.clean_index i) h2
      (lfstack.clean_index_lt i)⟩

/-- A single operation of the lock-based stack run with the mutex free
agrees with the plain stack's, relocking apart. -/
theorem lstack.runOp_unlocked (T : Type) (w : stack T) (op : StOp T) :
    lstack.runOp ⟨w, false⟩ op =
      (stack.runOp w op).map fun p => (⟨p.1, false⟩, p.2) := by
  cases op with
  | push t =>
    unfold lstack.runOp stack.runOp lstack.push
    cases h : w.push t with
    | none => simp [h]
    | some w2 => simp [h]
  | pop d =>
    unfold lstack.runOp stack.runOp lstack.try_pop
    simp

/-- A sequence of operations of the lock-based stack run with the mutex
free agrees with the plain stack's. -/
theorem lstack.runSeq_unlocked (T : Type) (ops : List (StOp T)) :
    ∀ w : stack T, lstack.runSeq ⟨w, false⟩ ops =
      (stack.runSeq w ops).map fun p => (⟨p.1, false⟩, p.2) := by
  induction ops with
  | nil => intro w; rfl
  | cons op ops ih =>
    intro w
    simp only [lstack.runSeq, stack.runSeq]
    rw [lstack.runOp_unlocked]
    cases h : stack.runOp w op with
    | none => rfl
    | some p =>
      obtain ⟨w2, out⟩ := p
      simp only [Option.map_some', Option.some_bind]
      rw [ih w2]
      cases h2 : stack.runSeq w2 ops with
      | none => rfl
      | some q =>
        obtain ⟨w3, outs⟩ := q
        rfl

/-- C7: on every variant, try_pop fails exactly on an empty stack
(count/index 0 at the call), and a failing try_pop leaves the state and
the out parameter unchanged, returning at once; a non-empty stack
always pops successfully, so emptiness is the only recoverable
failure. -/
theorem try_pop_false_iff_empty (T : Type) :
    (∀ (s : stack T) (d : T), s.index = 0 → s.try_pop d = (false, s, d)) ∧
    (∀ (s : stack T) (d : T), s.index ≠ 0 → (s.try_pop d).1 = true) ∧
    (∀ (s : lstack T) (d : T), s.locked = false → s.wrapped.index = 0 →
      s.try_pop d = some (false, s, d)) ∧
    (∀ (s : lstack T) (d : T), s.locked = false → s.wrapped.index ≠ 0 →
      ∃ s2 v, s.try_pop d = some (true, s2, v)) ∧
    (∀ (s : lfstack T) (d : T), s.inited = true →
      lfstack.read_index s.index = 0 → s.try_pop d = some (false, s, d)) ∧
    (∀ (s : lfstack T) (d : T), s.inited = true → s.index % 2 = 0 →
      s.index < 4294967296 → lfstack.read_index s.index ≠ 0 →
      ∃ s2 v, s.try_pop d = some (true, s2, v)) := by
  refine ⟨fun s d h => stack.try_pop_zero T s d h,
    fun s d h => by rw [stack.try_pop_pos T s d h],
    ?_, ?_,
    fun s d hinit hz => lfstack.try_pop_empty T s d hinit hz,
    fun s d hinit heven hlt hnz =>
      ⟨_, _, lfstack.try_pop_success T s d hinit heven hlt hnz⟩⟩
  · intro s d hl hz
    obtain ⟨w, l⟩ := s
    cases l with
    | true => cases hl
    | false => simp [lstack.try_pop, stack.try_pop_zero T w d hz]
  · intro s d hl hnz
    obtain ⟨w, l⟩ := s
    cases l with
    | true => cases hl
    | false =>
      refine ⟨⟨{ w with index := sub32 w.index 1 }, false⟩,
        w.contents (sub32 w.index 1), ?_⟩
      simp [lstack.try_pop, stack.try_pop_pos T w d hnz]

/-- Witness for C7: an empty plain stack refuses to pop and keeps the
out value; a two-element lock-free stack pops successfully. -/
theorem try_pop_false_iff_empty_witness :
    stack.try_pop ((stack.init Int 0).resize 5) 7
      = (false, (stack.init Int 0).resize 5, 7) ∧
    (∃ s2 v, lfstack.try_pop
      (⟨fun _ => (5 : Int), 4, true, 4, 4⟩ : lfstack Int) 0
      = some (true, s2, v)) := by
  refine ⟨(try_pop_false_iff_empty Int).1 _ 7 rfl, ?_⟩
  exact (try_pop_false_iff_empty Int).2.2.2.2.2
    (⟨fun _ => (5 : Int), 4, true, 4, 4⟩ : lfstack Int) 0 rfl (by decide)
    (by decide) (by decide)

/-- C8: called sequentially, the guarded stack is observationally
identical to the plain stack: after `nonconcurrent_resize n` and any
sequence of operations, every operation's outputs and the resulting
wrapped state coincide with the plain stack's after `resize n` and the
same sequence (the mutex always ends up released). -/
theorem lstack_refines_stack (T : Type) (d : T) (n : Nat)
    (ops : List (StOp T)) :
    lstack.runSeq ((lstack.init T d).nonconcurrent_resize n) ops =
      (stack.runSeq ((stack.init T d).resize n) ops).map
        fun p => (⟨p.1, false⟩, p.2) := by
  exact lstack.runSeq_unlocked T ops ((stack.init T d).resize n)

/-- Inversion for a successful lock-free push: it can only have fired
with the assertion satisfied, and the published word carries the
incremented count with the flag cleared, leaving `size` alone. -/
theorem lfstack.push_some_inv (T : Type) (s : lfstack T) (t : T)
    (s2 : lfstack T) (h : s.push t = some s2) :
    lfstack.read_index s.index < sub32 s.size 1 ∧
    s2.index = (2 * (lfstack.read_index s.index + 1)) % 4294967296 ∧
    s2.size = s.size := by
  simp only [lfstack.push] at h
  split at h
  · split at h
    next hpre =>
      rw [lfstack.read_index_flag] at hpre
      injection h with h
      subst h
      exact ⟨hpre, by rw [lfstack.clean_index_flag, lfstack.increment_clean], rfl⟩
    next hpre => cases h
  · cases h

/-- Inversion for a lock-free try_pop that returned: either it reported
an empty stack and changed nothing, or it popped, in which case the
observed word was clean (otherwise the no-interference CAS could not
succeed), at least 2, and got decremented by 2; `size` is untouched. -/
theorem lfstack.try_pop_some_inv (T : Type) (s : lfstack T) (d : T)
    (b : Bool) (s2 : lfstack T) (d2 : T)
    (h : s.try_pop d = some (b, s2, d2)) :
    (b = false ∧ s2 = s ∧ d2 = d ∧ lfstack.read_index s.index = 0) ∨
    (b = true ∧ s.index = lfstack.clean_index s.index ∧ 2 ≤ s.index ∧
      s2 = { s with index := s.index - 2 }) := by
  simp only [lfstack.try_pop] at h
  split at h
  · split at h
    next hz =>
      left
      injection h with h
      rw [Prod.mk.injEq, Prod.mk.injEq] at h
      exact ⟨h.1.symm, h.2.1.symm, h.2.2.symm,
        (lfstack.is_zero_clean_true_iff s.index).1 hz⟩
    next hz =>
      split at h
      next hok =>
        split at h
        next hcas =>
          right
          injection h with h
          rw [Prod.mk.injEq, Prod.mk.injEq] at h
          have hz2 : lfstack.is_zero (lfstack.clean_index s.index) = false := by
            revert hz
            cases lfstack.is_zero (lfstack.clean_index s.index) <;> simp
          have h2 : 2 ≤ lfstack.clean_index s.index := by
            have := (lfstack.is_zero_false_iff (lfstack.clean_index s.index)).1 hz2
            have := lfstack.clean_index_lt s.index
            omega
          have hdec : lfstack.decrement_index (lfstack.clean_index s.index) =
              lfstack.clean_index s.index - 2 :=
            lfstack.decrement_index_eq _ h2 (lfstack.clean_index_lt s.index)
          refine ⟨h.1.symm, hcas, by omega, ?_⟩
          rw [← h.2.1, hdec, ← hcas]
        next hcas => cases h
      next hok => cases h
  · cases h

/-- The per-operation step of the C3 invariant: any operation that
returns keeps the count field at most `size − 1` (uint32) if it was so
before, and never touches `size`. -/
theorem lfstack.runOp_count_le (T : Type) (s : lfstack T) (op : StOp T)
    (s2 : lfstack T) (out : List (Bool × T))
    (hinv : lfstack.read_index s.index ≤ sub32 s.size 1)
    (h : s.runOp op = some (s2, out)) :
    lfstack.read_index s2.index ≤ sub32 s2.size 1 := by
  cases op with
  | push t =>
    simp only [lfstack.runOp] at h
    cases hp : s.push t with
    | none => rw [hp] at h; cases h
    | some s3 =>
      rw [hp] at h
      injection h with h
      rw [Prod.mk.injEq] at h
      obtain ⟨hpre, hidx, hsz⟩ := lfstack.push_some_inv T s t s3 hp
      have h1 : s3 = s2 := h.1
      rw [← h1, hsz, hidx]
      unfold lfstack.read_index at hpre ⊢
      omega
  | pop d =>
    simp only [lfstack.runOp] at h
    cases hp : s.try_pop d with
    | none => rw [hp] at h; cases h
    | some r =>
      obtain ⟨b, s3, d3⟩ := r
      rw [hp] at h
      injection h with h
      rw [Prod.mk.injEq] at h
      have h1 : s3 = s2 := h.1
      rcases lfstack.try_pop_some_inv T s d b s3 d3 hp with
        ⟨_, hs, _, _⟩ | ⟨_, hclean, h2, hs⟩
      · rw [← h1, hs]; exact hinv
      · rw [← h1, hs]
        show lfstack.read_index (s.index - 2) ≤ sub32 s.size 1
        have hlt : s.index < 4294967296 := by
          rw [hclean]; exact lfstack.clean_index_lt s.index
        revert hinv
        unfold lfstack.read_index
        omega

/-- The C3 invariant carried over a whole sequence of operations. -/
theorem lfstack.runSeq_count_le (T : Type) (ops : List (StOp T)) :
    ∀ (s s2 : lfstack T) (outs : List (Bool × T)),
      lfstack.read_index s.index ≤ sub32 s.size 1 →
      s.runSeq ops = some (s2, outs) →
      lfstack.read_index s2.index ≤ sub32 s2.size 1 := by
  induction ops with
  | nil =>
    intro s s2 outs hinv h
    injection h with h
    rw [Prod.mk.injEq] at h
    rw [← h.1]
    exact hinv
  | cons op ops ih =>
    intro s s2 outs hinv h
    simp only [lfstack.runSeq] at h
    cases hop : s.runOp op with
    | none => rw [hop] at h; cases h
    | some p =>
      obtain ⟨s3, out⟩ := p
      rw [hop, Option.some_bind] at h
      cases h2 : s3.runSeq ops with
      | none => rw [h2, Option.map_none'] at h; cases h
      | some q =>
        obtain ⟨s4, outs2⟩ := q
        rw [h2, Option.map_some'] at h
        injection h with h
        rw [Prod.mk.injEq] at h
        have h1 : s4 = s2 := h.1
        rw [← h1]
        exact ih s3 s4 outs2 (lfstack.runOp_count_le T s op s3 out hinv hop) h2

/-- C3: on a lock-free stack set up with `nonconcurrent_resize n`, after
any sequence of pushes (each of which passed its assertion
`count < size − 1`, else the run traps) and try_pops, the count field
`ctrl >> 1` never exceeds `size − 1`: every completed operation
preserves `count ≤ size − 1`, which holds from setup. -/
theorem lfstack.count_le_size_sub_one (T : Type) (d : T) (n : Nat)
    (ops : List (StOp T)) (s2 : lfstack T) (outs : List (Bool × T))
    (h : lfstack.runSeq ((lfstack.init T d).nonconcurrent_resize n) ops
      = some (s2, outs)) :
    lfstack.read_index s2.index ≤ sub32 s2.size 1 := by
  refine lfstack.runSeq_count_le T ops _ s2 outs ?_ h
  show lfstack.read_index 0 ≤ sub32 (n % 4294967296) 1
  exact Nat.zero_le _

/-- Witness for C3: push then pop on a freshly resized stack. -/
theorem lfstack.count_le_size_sub_one_witness :
    lfstack.read_index 0 ≤ sub32 100 1 := by
  exact lfstack.count_le_size_sub_one Int 0 100 [StOp.push 1, StOp.pop 0]
    (⟨fun j => if j = 0 then (1 : Int) else 0, 100, true, 0, 100⟩ : lfstack Int)
    [(true, 1)] rfl

/-- Pushing onto a plain stack that encodes `L` (with the unassigned
`size` member still 0 and the index below the assertion bound) appends
to the encoded list. -/
theorem stack.push_encodes (T : Type) (s : stack T) (t : T) (L : List T)
    (henc : s.encodes L) (hinit : s.inited = true) (hsz : s.size = 0)
    (hlen : L.length < 4294967295) :
    ∃ s2, s.push t = some s2 ∧ s2.encodes (L ++ [t]) ∧
      s2.inited = true ∧ s2.size = 0 := by
  obtain ⟨hidx, hget⟩ := henc
  have hlt : s.index < sub32 s.size 1 := by
    rw [hsz, hidx]
    unfold sub32
    omega
  refine ⟨_, stack.push_eq_some T s t hinit hlt, ⟨?_, ?_⟩, hinit, hsz⟩
  · show (s.index + 1) % 4294967296 = (L ++ [t]).length
    rw [List.length_append, List.length_singleton, hidx]
    omega
  · intro j h
    show (if j = s.index then t else s.contents j) = (L ++ [t])[j]
    have hlb : j < L.length + 1 := by
      rw [List.length_append, List.length_singleton] at h
      exact h
    rcases Nat.lt_or_ge j L.length with hj | hj
    · rw [if_neg (by omega), hget j hj]
      exact (List.getElem_append_left hj).symm
    · have hj2 : j = L.length := by omega
      subst hj2
      rw [if_pos (by omega)]
      exact (List.getElem_concat_length L t L.length rfl h).symm

/-- Popping from a plain stack that encodes `L ++ [a]` succeeds, yields
`a`, and leaves a stack encoding `L`. -/
theorem stack.try_pop_encodes (T : Type) (s : stack T) (d a : T)
    (L : List T) (henc : s.encodes (L ++ [a]))
    (hlen : L.length + 1 < 4294967296) :
    s.try_pop d = (true, { s with index := L.length }, a) ∧
      stack.encodes ({ s with index := L.length } : stack T) L := by
  obtain ⟨hidx, hget⟩ := henc
  rw [List.length_append, List.length_singleton] at hidx
  have hnz : s.index ≠ 0 := by omega
  have hsub : sub32 s.index 1 = L.length := by
    rw [hidx, sub32_eq_sub (L.length + 1) 1 (by omega) (by omega)]
    omega
  have ha : s.contents L.length = a := by
    have h := hget L.length (by
      rw [List.length_append, List.length_singleton]
      omega)
    rw [h]
    exact List.getElem_concat_length L a L.length rfl (by
      rw [List.length_append, List.length_singleton]
      omega)
  constructor
  · rw [stack.try_pop_pos T s d hnz, hsub, ha]
  · refine ⟨rfl, ?_⟩
    intro j hj
    show s.contents j = L[j]
    rw [hget j (by
      rw [List.length_append, List.length_singleton]
      omega)]
    exact List.getElem_append_left hj

/-- Draining a plain stack that encodes `L` with `L.length` try_pops
succeeds each time and yields the elements of `L` in reverse order. -/
theorem stack.popN_encodes (T : Type) (L : List T) :
    ∀ (s : stack T) (d : T), s.encodes L → L.length < 4294967296 →
      (s.popN d L.length).1 = L.reverse.map fun v => (true, v) := by
  induction L using List.reverseRecOn with
  | nil =>
    intro s d henc hlen
    rfl
  | append_singleton L a ih =>
    intro s d henc hlen
    have hlen1 : L.length + 1 < 4294967296 := by
      rw [List.length_append, List.length_singleton] at hlen
      exact hlen
    obtain ⟨htp, henc2⟩ := stack.try_pop_encodes T s d a L henc hlen1
    have hlen3 : (L ++ [a]).length = L.length + 1 := by
      rw [List.length_append, List.length_singleton]
    rw [hlen3]
    simp only [stack.popN, htp]
    rw [ih ({ s with index := L.length }) a henc2 (by omega)]
    rw [List.reverse_append]
    simp

/-- Pushing a whole list onto a plain stack that encodes `L` appends it
to the encoded list, provided the index never reaches the wrap bound. -/
theorem stack.pushSeq_encodes (T : Type) (vs : List T) :
    ∀ (s : stack T) (L : List T), s.encodes L → s.inited = true →
      s.size = 0 → L.length + vs.length < 4294967296 →
      ∃ s2, s.pushSeq vs = some s2 ∧ s2.encodes (L ++ vs) ∧
        s2.inited = true ∧ s2.size = 0 := by
  induction vs with
  | nil =>
    intro s L henc hinit hsz _
    exact ⟨s, rfl, by simpa using henc, hinit, hsz⟩
  | cons v vs ih =>
    intro s L henc hinit hsz hlen
    rw [List.length_cons] at hlen
    obtain ⟨s2, hp, henc2, hinit2, hsz2⟩ :=
      stack.push_encodes T s v L henc hinit hsz (by omega)
    obtain ⟨s3, hps, henc3, hinit3, hsz3⟩ := ih s2 (L ++ [v]) henc2 hinit2
      hsz2 (by
        rw [List.length_append, List.length_singleton]
        omega)
    refine ⟨s3, ?_, ?_, hinit3, hsz3⟩
    · show (s.push v).bind _ = some s3
      rw [hp, Option.some_bind]
      exact hps
    · have hl : (L ++ [v]) ++ vs = L ++ v :: vs := by simp
      rw [← hl]
      exact henc3

/-- `pushSeq` distributes over list append. -/
theorem stack.pushSeq_append (T : Type) (as bs : List T) :
    ∀ s : stack T, s.pushSeq (as ++ bs) =
      (s.pushSeq as).bind fun s2 => s2.pushSeq bs := by
  induction as with
  | nil => intro s; rfl
  | cons a as ih =>
    intro s
    show (s.push a).bind _ = ((s.push a).bind _).bind _
    cases h : s.push a with
    | none => rfl
    | some s2 =>
      simp only [Option.some_bind]
      exact ih s2

/-- C5 (counterexample): the claim as stated — only `n < capacity − 1`
required — fails at capacity 4294967298 and n = 4294967296: the pushes
cannot all succeed, because the push finding `index = 4294967295` fails
the assertion `index < 0u − 1`, so no sequence of n successful pops can
follow. -/
theorem stack.lifo_order_counterexample :
    (List.replicate 4294967296 (0 : Int)).length < 4294967298 - 1 ∧
    ((stack.init Int 0).resize 4294967298).pushSeq
      (List.replicate 4294967296 (0 : Int)) = none := by
  constructor
  · rw [List.length_replicate]
    omega
  · have henc0 : ((stack.init Int 0).resize 4294967298).encodes [] :=
      ⟨rfl, fun j h => absurd h (Nat.not_lt_zero j)⟩
    obtain ⟨s2, hps, henc, hinit, hsz⟩ := stack.pushSeq_encodes Int
      (List.replicate 4294967295 (0 : Int))
      ((stack.init Int 0).resize 4294967298) [] henc0 rfl rfl (by
        rw [List.length_nil, List.length_replicate]
        omega)
    have hidx : s2.index = 4294967295 := by
      have h := henc.1
      rwa [List.nil_append, List.length_replicate] at h
    have hnone : s2.push (0 : Int) = none := by
      refine stack.push_eq_none Int s2 0 ?_
      rw [hidx, hsz]
      unfold sub32
      omega
    have hsplit : List.replicate 4294967296 (0 : Int)
        = List.replicate 4294967295 (0 : Int) ++ [(0 : Int)] :=
      List.replicate_succ' 4294967295 (0 : Int)
    rw [hsplit, stack.pushSeq_append, hps, Option.some_bind]
    show (s2.push 0).bind _ = none
    rw [hnone]
    rfl

/-- C5 (amended): for every sequence v1…vn with n below capacity − 1
and also below the uint32 wrap bound 4294967296 (so that every push's
assertion `index < 0u − 1` still passes), pushing v1…vn in order onto a
freshly resized plain stack succeeds, and n subsequent try_pops all
report success and yield vn…v1 in exactly that order. -/
theorem stack.lifo_order (T : Type) (d d0 : T) (capacity : Nat)
    (vs : List T) (hcap : vs.length < capacity - 1)
    (hwrap : vs.length < 4294967296) :
    ∃ s2, ((stack.init T d0).resize capacity).pushSeq vs = some s2 ∧
      (s2.popN d vs.length).1 = vs.reverse.map fun v => (true, v) := by
  have henc0 : ((stack.init T d0).resize capacity).encodes [] :=
    ⟨rfl, fun j h => absurd h (Nat.not_lt_zero j)⟩
  obtain ⟨s2, hps, henc, hinit, hsz⟩ := stack.pushSeq_encodes T vs
    ((stack.init T d0).resize capacity) [] henc0 rfl rfl (by
      rw [List.length_nil]
      omega)
  refine ⟨s2, hps, ?_⟩
  exact stack.popN_encodes T vs s2 d henc (by omega)

/-- Witness for C5's amended theorem: pushing 1, 2 at capacity 100 and
then popping twice yields 2 then 1. -/
theorem stack.lifo_order_witness :
    ∃ s2, ((stack.init Int 0).resize 100).pushSeq [1, 2] = some s2 ∧
      (s2.popN 0 (List.length [(1 : Int), 2])).1
        = (List.reverse [(1 : Int), 2]).map fun v => (true, v) := by
  exact stack.lifo_order Int 0 0 100 [1, 2] (by decide) (by decide)

/-- Witness for C1's amended theorem, at the raw word 6 and a concrete
stack holding two elements. -/
theorem lfstack.try_pop_cas_from_cleaned_witness :
    lfstack.try_pop_attempt 6 = some (lfstack.clean_index 6,
      lfstack.decrement_index (lfstack.clean_index 6)) := by
  exact (lfstack.try_pop_cas_from_cleaned Int 6
    (⟨fun _ => (5 : Int), 4, true, 4, 4⟩ : lfstack Int) 0
    (by decide) rfl (by decide) (by decide) (by decide)).1

/-- Witness for C2, at a concrete stack with count 2 and size 100. -/
theorem lfstack.push_publishes_incremented_count_witness :
    ∃ s2, lfstack.push (⟨fun _ => (0 : Int), 100, true, 4, 100⟩ : lfstack Int) 7
        = some s2 ∧
      s2.index = (2 * (lfstack.read_index 4 + 1)) % 4294967296 ∧
      s2.index % 2 = 0 ∧
      (2 * (lfstack.read_index 4 + 1) < 4294967296 →
        lfstack.read_index s2.index = lfstack.read_index 4 + 1) := by
  exact lfstack.push_publishes_incremented_count Int
    (⟨fun _ => (0 : Int), 100, true, 4, 100⟩ : lfstack Int) 7 rfl (by decide)

/-- Witness for C9, at capacity 5 and a concrete stack with index 3. -/
theorem stack.resize_keeps_size_zero_witness :
    ((stack.init Int 0).resize 5).size = 0 ∧
    (stack.push (⟨fun _ => (0 : Int), 5, true, 3, 0⟩ : stack Int) 9).isSome
      = true := by
  refine ⟨(stack.resize_keeps_size_zero Int 0 0 5 (stack.init Int 0)).2.1, ?_⟩
  exact (stack.resize_keeps_size_zero Int 0 (9 : Int) 5 (stack.init Int 0)).2.2.2
    (⟨fun _ => (0 : Int), 5, true, 3, 0⟩ : stack Int) rfl rfl (by decide)

/-- Witness for C10, at the raw word 5 (cleaned to 4). -/
theorem lfstack.decrement_index_no_underflow_witness :
    2 ≤ lfstack.clean_index 5 ∧
    lfstack.decrement_ok (lfstack.clean_index 5) ∧
    lfstack.decrement_index (lfstack.clean_index 5) =
      lfstack.clean_index 5 - 2 := by
  exact lfstack.decrement_index_no_underflow 5 (by decide)
